import Mathlib

/-!
Verification development for the manifest-unlocker backend
(`backend_gui.py` / `game_box_gui.py`).

Bytes are modelled as natural numbers (each value below 256 in well-formed
inputs); byte strings are lists of naturals.  External effects (network
fetches, zlib inflation) are modelled as explicit oracle functions, so every
definition is executable.
-/

/-- Value of four bytes read as a 32-bit little-endian integer
(`struct.unpack('III', …)` on the little-endian x86 targets the program
supports: it imports `winreg`, so it only runs on Windows). -/
def leU32 (b0 b1 b2 b3 : Nat) : Nat :=
  b0 + 256 * b1 + 65536 * b2 + 16777216 * b3

/-- Declared payload size of an `.st` byte string: bytes 4..7 of the header,
little-endian (the second component of the unpacked `(xorkey, size, _)`
triple in `STConverter.parse_st_file`). -/
def st_declared_size (content : List Nat) : Nat :=
  leU32 (content.getD 4 0) (content.getD 5 0) (content.getD 6 0) (content.getD 7 0)

/-- Raw xor key of an `.st` byte string: bytes 0..3 of the header,
little-endian. -/
def st_raw_xorkey (content : List Nat) : Nat :=
  leU32 (content.getD 0 0) (content.getD 1 0) (content.getD 2 0) (content.getD 3 0)

/-- Model of `STConverter.parse_st_file` (backend_gui.py lines 45-60).
`inflate` is the zlib-decompression oracle (`none` models `zlib.error`).
The returned value is the decoded script as bytes (the Python code finishes
with a UTF-8 decode of exactly these bytes).  Errors are the `ValueError` /
`zlib.error` exceptions the Python code raises; on error nothing is
returned, so no partial output exists. -/
def parse_st_file (inflate : List Nat → Option (List Nat)) (content : List Nat) :
    Except String (List Nat) :=
  if content.length < 12 then .error "header too short"
  else
    let xorkey := Nat.land (Nat.xor (st_raw_xorkey content) 0xFFFEA4C8) 0xFF
    let size := st_declared_size content
    let encrypted_data := (content.drop 12).take size
    if encrypted_data.length < size then .error "data too short"
    else
      let data := encrypted_data.map (fun b => Nat.xor b xorkey)
      match inflate data with
      | none => .error "zlib error"
      | some decompressed => .ok (decompressed.drop 512)

/-- Model of the per-file `.st` conversion loop in
`GuiBackend._process_zip_based_manifest` (backend_gui.py lines 351-360):
each file is converted inside a `try`; a failure is logged and the loop
continues with the remaining files, collecting only the successes. -/
def convert_st_files (inflate : List Nat → Option (List Nat)) :
    List (List Nat) → List (List Nat)
  | [] => []
  | f :: rest =>
    match parse_st_file inflate f with
    | .ok s => s :: convert_st_files inflate rest
    | .error _ => convert_st_files inflate rest

/-!
Key-value (VDF) configuration model.  `vdf.loads` produces nested
string-keyed insertion-ordered dictionaries; we model such a dictionary as an
association list (first match wins on lookup, as keys are unique in any
parsed dictionary), and `vdf.dumps` is a deterministic function of the
dictionary, so two equal dictionaries serialize to byte-identical files.
-/

/-- A VDF value: either a string or a nested dictionary. -/
inductive VdfVal where
  | str : String → VdfVal
  | obj : List (String × VdfVal) → VdfVal

/-- A VDF dictionary: insertion-ordered association list. -/
abbrev VdfObj := List (String × VdfVal)

/-- Dictionary lookup (`d.get(k)` / `d[k]`): first matching key. -/
def vlookup (d : VdfObj) (k : String) : Option VdfVal :=
  match d with
  | [] => none
  | (k', v) :: rest => if k' = k then some v else vlookup rest k

/-- Dictionary assignment `d[k] = v`: replaces the value in place if the key
is present, otherwise appends the new entry at the end (Python dict
insertion-order semantics). -/
def vset (d : VdfObj) (k : String) (v : VdfVal) : VdfObj :=
  match d with
  | [] => [(k, v)]
  | (k', v') :: rest => if k' = k then (k, v) :: rest else (k', v') :: vset rest k v

/-- Coerce an optional VDF value to a dictionary, as Python's
`x.get(key, {})` chain does when the value is absent. -/
def getObjD (v : Option VdfVal) : VdfObj :=
  match v with
  | some (.obj l) => l
  | _ => []

/-- Python truthiness of an optional VDF value: `None`, `""` and `{}` are
falsy, everything else is truthy. -/
def truthy (v : Option VdfVal) : Bool :=
  match v with
  | none => false
  | some (.str s) => !(s = "")
  | some (.obj l) => !l.isEmpty

/-- Keys of a dictionary. -/
def vkeys (d : VdfObj) : List String := d.map Prod.fst

/-- Python `d.update(u)`: assign each entry of `u` into `d` in order. -/
def dupdate (d : VdfObj) : VdfObj → VdfObj
  | [] => d
  | (k, v) :: rest => dupdate (vset d k v) rest

/-- The `steam.setdefault('depots', {}).update(D)` step of
`GuiBackend.depotkey_merge`: update the existing `depots` sub-dictionary in
place, or append a fresh one at the end of the section. -/
def merge_depots_into (steam D : VdfObj) : VdfObj :=
  match vlookup steam "depots" with
  | some (.obj dep) => vset steam "depots" (.obj (dupdate dep D))
  | _ => steam ++ [("depots", .obj (dupdate [] D))]

/-- Model of `GuiBackend.depotkey_merge` (backend_gui.py lines 291-307).
Returns the boolean result together with the configuration dictionary that
is serialized back to `config.vdf` (unchanged when the merge fails: the file
is only written in the success path, and every raised exception is caught
before the write).  A string found where a dictionary is expected makes the
Python attribute access raise, which the surrounding `except` turns into
`False` with the file untouched. -/
def depotkey_merge (config depots_config : VdfObj) : Bool × VdfObj :=
  match vlookup config "InstallConfigStore" with
  | some (.str _) => (false, config)
  | icsOpt =>
    let ics := getObjD icsOpt
    match vlookup ics "Software" with
    | some (.str _) => (false, config)
    | swOpt =>
      let sw := getObjD swOpt
      let key := if truthy (vlookup sw "Valve") then some "Valve"
                 else if truthy (vlookup sw "valve") then some "valve" else none
      match key with
      | none => (false, config)
      | some key =>
        match vlookup sw key with
        | some (.obj steam) =>
          match vlookup steam "depots" with
          | some (.str _) => (false, config)
          | _ =>
            match vlookup depots_config "depots" with
            | some (.str _) => (false, config)
            | dOpt =>
              let steam1 := merge_depots_into steam (getObjD dOpt)
              (true, vset config "InstallConfigStore"
                (.obj (vset ics "Software" (.obj (vset sw key (.obj steam1))))))
        | _ => (false, config)

/-!
Zip-based installation (GreenLuma / standard branch).
-/

/-- Observable outcome of one zip-based installation attempt: the reported
result plus the state written to disk. -/
structure ZipInstallOutcome where
  ok : Bool
  manifests_copied : List String
  keys_merged : List (String × String)
  registered_ids : List String
deriving Repr, DecidableEq

/-- Model of the GreenLuma / standard branch of
`GuiBackend._process_zip_based_manifest` (backend_gui.py lines 415-436),
after the archive has been extracted: `manifest_files` are the `*.manifest`
names found, `all_depots` the `(depot_id, key)` pairs harvested from the
`*.lua` files by the `addappid` regex.  Without manifest files the attempt
returns `False`; otherwise the manifests are copied into `depotcache`, any
harvested keys are merged via `depotkey_merge`, the AppID (and key owners)
are registered through `greenluma_add`, and the attempt returns `True` -
also when no key at all was found. -/
def process_zip_greenluma (app_id : String) (manifest_files : List String)
    (all_depots : List (String × String)) : ZipInstallOutcome :=
  if manifest_files.isEmpty then
    { ok := false, manifests_copied := [], keys_merged := [], registered_ids := [] }
  else if all_depots.isEmpty then
    { ok := true, manifests_copied := manifest_files, keys_merged := [],
      registered_ids := [app_id] }
  else
    { ok := true, manifests_copied := manifest_files, keys_merged := all_depots,
      registered_ids := app_id :: all_depots.map Prod.fst }

/-!
DLC enumeration and classification (`GuiBackend.get_game_dlcs`).
-/

/-- Classification record for one DLC, as built by
`GuiBackend._analyze_single_dlc`. -/
structure DlcInfo where
  appid : String
  name : String
  has_depots : Bool
deriving Repr, DecidableEq

/-- Mutable state of the classification loop in `GuiBackend.get_game_dlcs`:
the processed counter, the progress events `(current, total)` emitted so
far, and the accumulated free/paid lists. -/
structure BatchState where
  count : Nat
  events : List (Nat × Nat)
  free : List DlcInfo
  paid : List DlcInfo
deriving Repr, DecidableEq

/-- Handling of one `asyncio.gather` result inside `get_game_dlcs`
(backend_gui.py lines 545-560): bump the counter, report progress, then
either log-and-skip an exception or append the record to the free or paid
list. -/
def process_result (total : Nat) (st : BatchState) (res : Except Unit DlcInfo) :
    BatchState :=
  let c := st.count + 1
  match res with
  | .error _ =>
    { st with count := c, events := st.events ++ [(c, total)] }
  | .ok info =>
    if info.has_depots then
      { st with count := c, events := st.events ++ [(c, total)], paid := st.paid ++ [info] }
    else
      { st with count := c, events := st.events ++ [(c, total)], free := st.free ++ [info] }

/-- Successive slices of at most `bs` elements, as produced by
`for batch_start in range(0, len(ids), batch_size)` with slicing; the fuel
argument (instantiated with the list length) makes the recursion
structural. -/
def chunksOfAux (bs : Nat) : Nat → List α → List (List α)
  | _, [] => []
  | 0, _ :: _ => []
  | fuel + 1, x :: xs => (x :: xs.take (bs - 1)) :: chunksOfAux bs fuel (xs.drop (bs - 1))

/-- The batches of size `bs` of a list. -/
def chunksOf (bs : Nat) (l : List α) : List (List α) := chunksOfAux bs l.length l

/-- Model of the classification loop of `GuiBackend.get_game_dlcs`
(backend_gui.py lines 527-567): the candidate ids are processed in
concurrent batches of 10; `analyze` is the outcome of
`_analyze_single_dlc` for one id (`Except.error` models a raised
exception). -/
def get_game_dlcs (analyze : String → Except Unit DlcInfo)
    (all_dlc_ids : List String) : BatchState :=
  (chunksOf 10 all_dlc_ids).foldl
    (fun st batch => (batch.map analyze).foldl (process_result all_dlc_ids.length) st)
    { count := 0, events := [], free := [], paid := [] }

/-!
Ordered source fallback for paid DLCs (`GuiBackend.process_dlcs`).
-/

/-- The inner source loop of the paid-DLC branch of
`GuiBackend.process_dlcs` (backend_gui.py lines 748-779): each selected
source is attempted in order; `fetch r = some true` is a successful
fetch-and-install from `r`, `some false` a miss and `none` a raised
exception (logged, loop continues).  Returns whether some source succeeded
together with the list of sources actually attempted, in order. -/
def try_repos (fetch : String → Option Bool) : List String → Bool × List String
  | [] => (false, [])
  | r :: rest =>
    match fetch r with
    | some true => (true, [r])
    | _ =>
      let p := try_repos fetch rest
      (p.1, r :: p.2)

/-- The paid-DLC loop of `GuiBackend.process_dlcs` (backend_gui.py lines
744-783): each paid DLC is resolved through `try_repos`; DLCs for which
every source failed are collected in the `failed` list, the others in
`success`. -/
def process_paid_dlcs (fetch : String → String → Option Bool)
    (repos : List String) : List DlcInfo → List DlcInfo × List DlcInfo
  | [] => ([], [])
  | dlc :: rest =>
    let found := (try_repos (fetch dlc.appid) repos).1
    let p := process_paid_dlcs fetch repos rest
    if found then (dlc :: p.1, p.2) else (p.1, dlc :: p.2)

/-!
Free-DLC merge into an existing SteamTools script
(`GuiBackend.process_dlcs`, free branch).
-/

/-- The literal `addappid(` searched for by the regex `addappid\((\d+)`. -/
def addappid_open : List Char := "addappid(".toList

/-- If `p` is a leading pattern of the text, return the remaining text. -/
def beginsWith : List Char → List Char → Option (List Char)
  | [], cs => some cs
  | _ :: _, [] => none
  | p :: ps, c :: cs => if c = p then beginsWith ps cs else none

/-- First match of the regex `addappid\((\d+)` in a line: scan for the first
position where the literal `addappid(` is followed by at least one digit and
return the maximal digit run (the capture group), as
`re.search(r'addappid\((\d+)', line)` does. -/
def findAddappidId : List Char → Option String
  | [] => none
  | c :: cs =>
    match beginsWith addappid_open (c :: cs) with
    | some rest =>
      let ds := rest.takeWhile Char.isDigit
      if ds.isEmpty then findAddappidId cs else some (String.mk ds)
    | none => findAddappidId cs

/-- Numeric value of a digit run (Python `int` on the capture group). -/
def digitsVal (cs : List Char) : Nat :=
  cs.foldl (fun n c => n * 10 + (c.toNat - 48)) 0

/-- Sort key used by `process_dlcs` for `addappid` lines
(backend_gui.py lines 716-718): the captured id as an integer, `0` when the
regex does not match. -/
def get_appid_from_line (line : String) : Nat :=
  match findAddappidId line.toList with
  | some s => digitsVal s.toList
  | none => 0

/-- Ascending order on the numeric sort key of `addappid` lines. -/
def addappid_le (a b : String) : Prop :=
  get_appid_from_line a ≤ get_appid_from_line b

instance : DecidableRel addappid_le := fun a b =>
  inferInstanceAs (Decidable (get_appid_from_line a ≤ get_appid_from_line b))

instance : IsTotal String addappid_le :=
  ⟨fun _ _ => le_total _ _⟩

instance : IsTrans String addappid_le :=
  ⟨fun _ _ _ => Nat.le_trans⟩

/-- Python `line.startswith(p)`: prefix test at character level. -/
def str_startswith (s p : String) : Bool :=
  p.toList.isPrefixOf s.toList

/-- The set (as a list) of already-registered ids of a script: result of
running the `addappid\((\d+)` regex over every line
(backend_gui.py lines 686-689). -/
def existing_addappids (lines : List String) : List String :=
  lines.filterMap (fun l => findAddappidId l.toList)

/-- The register-app directive written for a free DLC. -/
def mk_addappid_line (id : String) : String := "addappid(" ++ id ++ ")"

/-- Line classification of the merge loop (backend_gui.py lines 707-713):
`0` for `addappid` lines, `1` for (possibly commented) `setManifestid`
lines, `2` for the rest. -/
def lineClass (l : String) : Nat :=
  if str_startswith l "addappid" then 0
  else if str_startswith l "setManifestid" || str_startswith l "--setManifestid" then 1
  else 2

/-- Model of the free-DLC branch of `GuiBackend.process_dlcs`
(backend_gui.py lines 676-732) for an existing script file, given its
stripped lines and the appids of the newly discovered free DLCs.  Returns
`none` when nothing new was found (the file is not rewritten at all) and
`some lines` for the rewritten file content otherwise.  Python's stable
ascending `list.sort(key=...)` is modelled by insertion sort with the same
key, which computes the identical (stable) result. -/
def process_free_dlcs_lua (existing_lines : List String) (free_ids : List String) :
    Option (List String) :=
  let existing_appids := existing_addappids existing_lines
  let new_lines := free_ids.filterMap (fun id =>
    if id ∈ existing_appids then none else some (mk_addappid_line id))
  if new_lines.isEmpty then none
  else
    let all_lines := existing_lines ++ new_lines
    let addappid_lines := all_lines.filter (fun l => lineClass l == 0)
    let setmanifestid_lines := all_lines.filter (fun l => lineClass l == 1)
    let other_lines := all_lines.filter (fun l => lineClass l == 2)
    let sorted_add := List.insertionSort addappid_le addappid_lines
    some (sorted_add ++ setmanifestid_lines ++ other_lines.filter (fun l => !(l = "")))

/-!
Search across all repo-tree sources (`GuiBackend.search_all_repos` and the
selection in `GameBoxGUI.process_game_thread`).
-/

/-- Parsed reply of the branch-lookup request for one repository:
whether the JSON carries a `commit` object, the commit sha, the tree URL and
the author date. -/
structure BranchResp where
  hasCommit : Bool
  sha : String
  treeUrl : String
  date : String

/-- Parsed reply of the tree-lookup request: whether it carries a `tree`. -/
structure TreeResp where
  hasTree : Bool

/-- One hit of `search_all_repos`. -/
structure SearchResult where
  repo : String
  sha : String
  update_date : String
deriving Repr, DecidableEq

/-- Model of `GuiBackend.search_all_repos` (backend_gui.py lines 229-245):
each repository in order is asked for a branch named after the AppID
(`branchInfo`, `none` models a failed request), then for its tree
(`treeInfo`); only repositories for which both lookups deliver the expected
fields contribute a result. -/
def search_all_repos (branchInfo : String → Option BranchResp)
    (treeInfo : String → Option TreeResp) (repos : List String) : List SearchResult :=
  repos.filterMap (fun repo =>
    match branchInfo repo with
    | none => none
    | some r1 =>
      if r1.hasCommit then
        match treeInfo r1.treeUrl with
        | none => none
        | some r2 =>
          if r2.hasTree then some ⟨repo, r1.sha, r1.date⟩ else none
      else none)

/-- Descending comparison on update dates used by
`results.sort(key=lambda x: x['update_date'], reverse=True)`. -/
def dateGe (a b : SearchResult) : Prop := b.update_date ≤ a.update_date

instance : DecidableRel dateGe := fun a b =>
  inferInstanceAs (Decidable (b.update_date ≤ a.update_date))

instance : IsTotal SearchResult dateGe :=
  ⟨fun a b => (le_total b.update_date a.update_date).imp id id⟩

instance : IsTrans SearchResult dateGe :=
  ⟨fun _ _ _ h1 h2 => le_trans h2 h1⟩

/-- Model of the selection in `GameBoxGUI.process_game_thread`
(game_box_gui.py lines 1962-1965): stable descending sort by update date,
then take the first element. -/
def select_latest (results : List SearchResult) : Option SearchResult :=
  (List.insertionSort dateGe results).head?

/-!
Region gate (`GuiBackend.checkcn` / `GuiBackend.get_from_url`).
-/

/-- Model of `GuiBackend.checkcn` (backend_gui.py lines 181-192): the
response of the region probe is `some flag` (the truthiness of the `flag`
field of the parsed JSON) or `none` when the request or the parse raised.
Returns the value stored into the `IS_CN` environment variable. -/
def checkcn (resp : Option Bool) : String :=
  match resp with
  | some flag => if flag then "yes" else "no"
  | none => "yes"

/-- A candidate download URL, split into its host and the path after it. -/
structure MirrorUrl where
  host : String
  tail : String
deriving Repr, DecidableEq

/-- Model of the URL candidate list of `GuiBackend.get_from_url`
(backend_gui.py lines 210-213): two CN mirror CDNs when `IS_CN` is `yes`,
only the official GitHub raw host otherwise.  The loop then tries the
candidates in this order. -/
def get_from_url_candidates (is_cn : String) (repo sha path : String) :
    List MirrorUrl :=
  if is_cn = "yes" then
    [⟨"cdn.jsdmirror.com", "gh/" ++ repo ++ "@" ++ sha ++ "/" ++ path⟩,
     ⟨"raw.gitmirror.com", repo ++ "/" ++ sha ++ "/" ++ path⟩]
  else
    [⟨"raw.githubusercontent.com", repo ++ "/" ++ sha ++ "/" ++ path⟩]

/-!
Helper lemmas about the dictionary model.
-/

theorem vlookup_vset_self (d : VdfObj) (k : String) (v : VdfVal) :
    vlookup (vset d k v) k = some v := by
  induction d with
  | nil => simp [vset, vlookup]
  | cons p rest ih =>
    obtain ⟨k', v'⟩ := p
    by_cases h : k' = k
    · simp [vset, vlookup, h]
    · simp [vset, vlookup, h, ih]

theorem vlookup_vset_ne (d : VdfObj) {k' k : String} (v : VdfVal) (h : k' ≠ k) :
    vlookup (vset d k' v) k = vlookup d k := by
  induction d with
  | nil => simp [vset, vlookup, h]
  | cons p rest ih =>
    obtain ⟨k₁, v₁⟩ := p
    by_cases h1 : k₁ = k'
    · subst h1
      simp [vset, vlookup, h]
    · simp only [vset, if_neg h1]
      by_cases h2 : k₁ = k
      · simp [vlookup, h2]
      · simp [vlookup, h2, ih]

theorem vset_self {d : VdfObj} {k : String} {v : VdfVal} (h : vlookup d k = some v) :
    vset d k v = d := by
  induction d with
  | nil => simp [vlookup] at h
  | cons p rest ih =>
    obtain ⟨k₁, v₁⟩ := p
    by_cases h1 : k₁ = k
    · subst h1
      have h' : v₁ = v := by simpa [vlookup] using h
      subst h'
      simp [vset]
    · simp only [vlookup, if_neg h1] at h
      simp [vset, h1, ih h]

theorem vset_ne_nil (d : VdfObj) (k : String) (v : VdfVal) : vset d k v ≠ [] := by
  cases d with
  | nil => simp [vset]
  | cons p rest =>
    obtain ⟨k₁, v₁⟩ := p
    by_cases h : k₁ = k <;> simp [vset, h]

theorem vlookup_append_left_none {a : VdfObj} (b : VdfObj) {k : String}
    (h : vlookup a k = none) : vlookup (a ++ b) k = vlookup b k := by
  induction a with
  | nil => rfl
  | cons p rest ih =>
    obtain ⟨k₁, v₁⟩ := p
    by_cases h1 : k₁ = k
    · simp [vlookup, h1] at h
    · simp only [vlookup, if_neg h1] at h
      simpa [vlookup, h1] using ih h

theorem vlookup_dupdate_not_mem {u : VdfObj} {k : String} (h : k ∉ vkeys u) :
    ∀ d, vlookup (dupdate d u) k = vlookup d k := by
  induction u with
  | nil => intro d; rfl
  | cons p rest ih =>
    obtain ⟨k₁, v₁⟩ := p
    intro d
    have hne : k₁ ≠ k := fun he => h (by simp [vkeys, he])
    have hrest : k ∉ vkeys rest := fun hm => h (by simp [vkeys] at hm ⊢; exact Or.inr hm)
    simp only [dupdate]
    rw [ih hrest, vlookup_vset_ne _ _ hne]

theorem vlookup_dupdate_of_some {u : VdfObj} (hnd : (vkeys u).Nodup) {k : String}
    {v : VdfVal} (h : vlookup u k = some v) :
    ∀ d, vlookup (dupdate d u) k = some v := by
  induction u with
  | nil => simp [vlookup] at h
  | cons p rest ih =>
    obtain ⟨k₁, v₁⟩ := p
    intro d
    simp only [vkeys, List.map_cons, List.nodup_cons] at hnd
    by_cases h1 : k₁ = k
    · subst h1
      have h' : v₁ = v := by simpa [vlookup] using h
      subst h'
      simp only [dupdate]
      rw [vlookup_dupdate_not_mem hnd.1, vlookup_vset_self]
    · simp only [vlookup, if_neg h1] at h
      simp only [dupdate]
      exact ih hnd.2 h _

theorem dupdate_idem {u : VdfObj} (hnd : (vkeys u).Nodup) :
    ∀ d, dupdate (dupdate d u) u = dupdate d u := by
  induction u with
  | nil => intro d; rfl
  | cons p rest ih =>
    obtain ⟨k, v⟩ := p
    intro d
    simp only [vkeys, List.map_cons, List.nodup_cons] at hnd
    simp only [dupdate]
    have hlook : vlookup (dupdate (vset d k v) rest) k = some v := by
      rw [vlookup_dupdate_not_mem hnd.1, vlookup_vset_self]
    rw [vset_self hlook, ih hnd.2]

theorem vlookup_append_single_ne (a : VdfObj) {k k' : String} (v : VdfVal)
    (h : k' ≠ k) : vlookup (a ++ [(k', v)]) k = vlookup a k := by
  induction a with
  | nil => simp [vlookup, h]
  | cons p rest ih =>
    obtain ⟨k₁, v₁⟩ := p
    by_cases h1 : k₁ = k <;> simp [vlookup, h1, ih]

theorem vlookup_merge_depots_into (steam D : VdfObj)
    (h : ∀ s, vlookup steam "depots" ≠ some (.str s)) :
    vlookup (merge_depots_into steam D) "depots" =
      some (.obj (dupdate (getObjD (vlookup steam "depots")) D)) := by
  unfold merge_depots_into
  cases hd : vlookup steam "depots" with
  | none =>
    rw [vlookup_append_left_none _ hd]
    simp [vlookup, getObjD]
  | some v =>
    cases v with
    | str s => exact absurd hd (h s)
    | obj dep =>
      rw [vlookup_vset_self]
      simp [getObjD]

theorem vlookup_merge_depots_into_ne (steam D : VdfObj) {k : String}
    (hk : k ≠ "depots") :
    vlookup (merge_depots_into steam D) k = vlookup steam k := by
  unfold merge_depots_into
  have hne : "depots" ≠ k := fun he => hk he.symm
  cases hd : vlookup steam "depots" with
  | none => exact vlookup_append_single_ne _ _ hne
  | some v =>
    cases v with
    | str s => exact vlookup_append_single_ne _ _ hne
    | obj dep => exact vlookup_vset_ne _ _ hne

theorem merge_depots_into_ne_nil (steam D : VdfObj) :
    merge_depots_into steam D ≠ [] := by
  unfold merge_depots_into
  cases hd : vlookup steam "depots" with
  | none => simp
  | some v =>
    cases v with
    | str s => simp
    | obj dep => exact vset_ne_nil _ _ _

theorem depotkey_merge_success
    (config dc ics sw steam D : VdfObj) (key : String)
    (hics : vlookup config "InstallConfigStore" = some (.obj ics))
    (hsw : vlookup ics "Software" = some (.obj sw))
    (hkey : (key = "Valve" ∧ truthy (vlookup sw "Valve") = true) ∨
            (key = "valve" ∧ truthy (vlookup sw "Valve") = false ∧
              truthy (vlookup sw "valve") = true))
    (hsteam : vlookup sw key = some (.obj steam))
    (hdep : ∀ s, vlookup steam "depots" ≠ some (.str s))
    (hD : vlookup dc "depots" = some (.obj D)) :
    depotkey_merge config dc =
      (true, vset config "InstallConfigStore"
        (.obj (vset ics "Software"
          (.obj (vset sw key (.obj (merge_depots_into steam D))))))) := by
  unfold depotkey_merge
  rw [hics]
  simp only [getObjD]
  rw [hsw]
  simp only [getObjD]
  have hkey' : (if truthy (vlookup sw "Valve") = true then some "Valve"
      else if truthy (vlookup sw "valve") = true then some "valve" else none)
      = some key := by
    rcases hkey with ⟨hk, ht⟩ | ⟨hk, htf, ht⟩
    · subst hk; simp [ht]
    · subst hk; simp [htf, ht]
  rw [hkey']
  dsimp only
  rw [hsteam]
  cases hd : vlookup steam "depots" with
  | none =>
    rw [hD]
    simp only [getObjD]
  | some v =>
    cases v with
    | str s => exact absurd hd (hdep s)
    | obj dep =>
      rw [hD]
      simp only [getObjD]

theorem depotkey_merge_no_section
    (config dc ics sw : VdfObj)
    (hics : vlookup config "InstallConfigStore" = some (.obj ics))
    (hsw : vlookup ics "Software" = some (.obj sw))
    (hValve : truthy (vlookup sw "Valve") = false)
    (hvalve : truthy (vlookup sw "valve") = false) :
    depotkey_merge config dc = (false, config) := by
  unfold depotkey_merge
  rw [hics]
  simp only [getObjD]
  rw [hsw]
  simp only [getObjD]
  simp [hValve, hvalve]

theorem vlookup_eq_none_iff {d : VdfObj} {k : String} :
    vlookup d k = none ↔ k ∉ vkeys d := by
  induction d with
  | nil => simp [vlookup, vkeys]
  | cons p rest ih =>
    obtain ⟨k₁, v₁⟩ := p
    simp only [vkeys, List.map_cons, List.mem_cons, vlookup]
    by_cases h : k₁ = k
    · simp [h]
    · simp only [if_neg h]
      rw [ih]
      simp only [vkeys]
      constructor
      · intro hn hc
        rcases hc with hc | hc
        · exact h hc.symm
        · exact hn hc
      · intro hn hc
        exact hn (Or.inr hc)

/-- A configuration whose `Software` section carries the `Valve` spelling as
an (unusual) empty section. -/
def cfg_empty_valve : VdfObj :=
  [("InstallConfigStore", .obj [("Software", .obj [("Valve", .obj [])])])]

/-- A depot-key mapping as the callers build it. -/
def dc_one_key : VdfObj :=
  [("depots", .obj [("1", .obj [("DecryptionKey", .str "K")])])]

/-- Counterexample to claim C3 as stated: in this configuration the parent
section is present under the case spelling `Valve` (second conjunct), yet
`depotkey_merge` does not merge into it - it returns `False` and leaves the
configuration untouched, because the Python code tests the section with
`or`/`if not steam:`, i.e. by truthiness, and an empty section is falsy. -/
theorem depotkey_merge_empty_section_counterexample :
    depotkey_merge cfg_empty_valve dc_one_key = (false, cfg_empty_valve) ∧
    vlookup (getObjD (vlookup (getObjD (vlookup cfg_empty_valve "InstallConfigStore"))
      "Software")) "Valve" = some (.obj []) :=
  ⟨rfl, rfl⟩

/-- Claim C3 (amended): for every parsed configuration in which the parent
section is found under one of the case spellings `Valve`/`valve` and is
non-empty (Python truthiness - an empty or string-valued section counts as
absent), `depotkey_merge` merges the supplied `depot_id → {DecryptionKey}`
mapping into that section's `depots` map, preserving every preexisting depot
entry whose id is not in the supplied mapping, touching no sibling key
outside `depots` and no other key of the enclosing dictionaries; and when
neither spelling is present-and-truthy it returns `False` with the
configuration (hence the on-disk file) unchanged. -/
theorem depotkey_merge_spec :
    (∀ (config dc ics sw steam D : VdfObj) (key : String),
        vlookup config "InstallConfigStore" = some (.obj ics) →
        vlookup ics "Software" = some (.obj sw) →
        ((key = "Valve" ∧ truthy (vlookup sw "Valve") = true) ∨
         (key = "valve" ∧ truthy (vlookup sw "Valve") = false ∧
           truthy (vlookup sw "valve") = true)) →
        vlookup sw key = some (.obj steam) →
        (∀ s, vlookup steam "depots" ≠ some (.str s)) →
        vlookup dc "depots" = some (.obj D) →
        (vkeys D).Nodup →
        (depotkey_merge config dc =
          (true, vset config "InstallConfigStore"
            (.obj (vset ics "Software"
              (.obj (vset sw key (.obj (merge_depots_into steam D))))))) ∧
        vlookup (merge_depots_into steam D) "depots" =
          some (.obj (dupdate (getObjD (vlookup steam "depots")) D)) ∧
        (∀ id, vlookup D id = none →
          vlookup (dupdate (getObjD (vlookup steam "depots")) D) id =
            vlookup (getObjD (vlookup steam "depots")) id) ∧
        (∀ id v, vlookup D id = some v →
          vlookup (dupdate (getObjD (vlookup steam "depots")) D) id = some v) ∧
        (∀ k, k ≠ "depots" →
          vlookup (merge_depots_into steam D) k = vlookup steam k) ∧
        (∀ k, k ≠ key →
          vlookup (vset sw key (.obj (merge_depots_into steam D))) k = vlookup sw k) ∧
        (∀ k, k ≠ "Software" →
          vlookup (vset ics "Software"
            (.obj (vset sw key (.obj (merge_depots_into steam D))))) k = vlookup ics k) ∧
        (∀ k, k ≠ "InstallConfigStore" →
          vlookup (vset config "InstallConfigStore"
            (.obj (vset ics "Software"
              (.obj (vset sw key (.obj (merge_depots_into steam D))))))) k
            = vlookup config k))) ∧
    (∀ (config dc ics sw : VdfObj),
        vlookup config "InstallConfigStore" = some (.obj ics) →
        vlookup ics "Software" = some (.obj sw) →
        truthy (vlookup sw "Valve") = false →
        truthy (vlookup sw "valve") = false →
        depotkey_merge config dc = (false, config)) := by
  constructor
  · intro config dc ics sw steam D key hics hsw hkey hsteam hdep hD hnd
    refine ⟨depotkey_merge_success config dc ics sw steam D key hics hsw hkey hsteam hdep hD,
      vlookup_merge_depots_into steam D hdep, ?_, ?_, ?_, ?_, ?_, ?_⟩
    · intro id hid
      exact vlookup_dupdate_not_mem (vlookup_eq_none_iff.mp hid) _
    · intro id v hv
      exact vlookup_dupdate_of_some hnd hv _
    · intro k hk
      exact vlookup_merge_depots_into_ne steam D hk
    · intro k hk
      exact vlookup_vset_ne _ _ (Ne.symm hk)
    · intro k hk
      exact vlookup_vset_ne _ _ (Ne.symm hk)
    · intro k hk
      exact vlookup_vset_ne _ _ (Ne.symm hk)
  · intro config dc ics sw hics hsw hValve hvalve
    exact depotkey_merge_no_section config dc ics sw hics hsw hValve hvalve

/-- A configuration with a well-formed, non-empty `Valve` section. -/
def cfgA : VdfObj :=
  [("InstallConfigStore", .obj [("Software", .obj
    [("Valve", .obj [("Steam", .obj [("x", .str "1")]),
      ("depots", .obj [("111", .obj [("DecryptionKey", .str "old")])])])])])]

/-- The `Software` section of `cfgA`. -/
def swA : VdfObj :=
  [("Valve", .obj [("Steam", .obj [("x", .str "1")]),
    ("depots", .obj [("111", .obj [("DecryptionKey", .str "old")])])])]

/-- The `Valve` section of `cfgA`. -/
def steamA : VdfObj :=
  [("Steam", .obj [("x", .str "1")]),
   ("depots", .obj [("111", .obj [("DecryptionKey", .str "old")])])]

/-- A depot-key mapping for one new depot. -/
def dcA : VdfObj := [("depots", .obj [("222", .obj [("DecryptionKey", .str "new")])])]

/-- The supplied depot dictionary inside `dcA`. -/
def DA : VdfObj := [("222", .obj [("DecryptionKey", .str "new")])]

theorem depotkey_merge_spec_witness :
    depotkey_merge cfgA dcA =
      (true, vset cfgA "InstallConfigStore"
        (.obj (vset [("Software", .obj swA)] "Software"
          (.obj (vset swA "Valve" (.obj (merge_depots_into steamA DA))))))) :=
  (depotkey_merge_spec.1 cfgA dcA [("Software", .obj swA)] swA steamA DA "Valve"
    rfl rfl (Or.inl ⟨rfl, rfl⟩) rfl
    (by intro s h; simp [steamA, vlookup] at h) rfl (by decide)).1

/-- Claim C7: merging the same depot-key mapping twice is idempotent - when
the first merge succeeds (the parent section is found and truthy), running
`depotkey_merge` again with the same mapping returns the very same
configuration, so the serialized `config.vdf` is unchanged after the second
merge. -/
theorem depotkey_merge_idempotent
    (config dc ics sw steam D : VdfObj) (key : String)
    (hics : vlookup config "InstallConfigStore" = some (.obj ics))
    (hsw : vlookup ics "Software" = some (.obj sw))
    (hkey : (key = "Valve" ∧ truthy (vlookup sw "Valve") = true) ∨
            (key = "valve" ∧ truthy (vlookup sw "Valve") = false ∧
              truthy (vlookup sw "valve") = true))
    (hsteam : vlookup sw key = some (.obj steam))
    (hdep : ∀ s, vlookup steam "depots" ≠ some (.str s))
    (hD : vlookup dc "depots" = some (.obj D))
    (hnd : (vkeys D).Nodup) :
    depotkey_merge (depotkey_merge config dc).2 dc = depotkey_merge config dc := by
  have h1 := depotkey_merge_success config dc ics sw steam D key hics hsw hkey hsteam hdep hD
  rw [h1]
  have hlook_steam : vlookup (vset sw key (.obj (merge_depots_into steam D))) key
      = some (.obj (merge_depots_into steam D)) := vlookup_vset_self _ _ _
  have hsteam1_ne : merge_depots_into steam D ≠ [] := merge_depots_into_ne_nil _ _
  have hkey1 : (key = "Valve" ∧
        truthy (vlookup (vset sw key (.obj (merge_depots_into steam D))) "Valve") = true) ∨
      (key = "valve" ∧
        truthy (vlookup (vset sw key (.obj (merge_depots_into steam D))) "Valve") = false ∧
        truthy (vlookup (vset sw key (.obj (merge_depots_into steam D))) "valve") = true) := by
    rcases hkey with ⟨hk, ht⟩ | ⟨hk, htf, ht⟩
    · subst hk
      left
      refine ⟨rfl, ?_⟩
      rw [vlookup_vset_self]
      simp [truthy, hsteam1_ne]
    · subst hk
      right
      refine ⟨rfl, ?_, ?_⟩
      · rw [vlookup_vset_ne _ _ (by decide : "valve" ≠ "Valve")]
        exact htf
      · rw [vlookup_vset_self]
        simp [truthy, hsteam1_ne]
  have hdep1 : vlookup (merge_depots_into steam D) "depots"
      = some (.obj (dupdate (getObjD (vlookup steam "depots")) D)) :=
    vlookup_merge_depots_into steam D hdep
  have hdep1' : ∀ s, vlookup (merge_depots_into steam D) "depots" ≠ some (.str s) := by
    intro s h
    rw [hdep1] at h
    exact VdfVal.noConfusion (Option.some.injEq _ _ ▸ h)
  have h2 := depotkey_merge_success
    (vset config "InstallConfigStore"
      (.obj (vset ics "Software" (.obj (vset sw key (.obj (merge_depots_into steam D)))))))
    dc
    (vset ics "Software" (.obj (vset sw key (.obj (merge_depots_into steam D)))))
    (vset sw key (.obj (merge_depots_into steam D)))
    (merge_depots_into steam D) D key
    (vlookup_vset_self _ _ _) (vlookup_vset_self _ _ _) hkey1 hlook_steam hdep1' hD
  rw [h2]
  have hmerge1 : merge_depots_into (merge_depots_into steam D) D
      = merge_depots_into steam D := by
    have hstep : ∀ (t dep : VdfObj), vlookup t "depots" = some (.obj dep) →
        merge_depots_into t D = vset t "depots" (.obj (dupdate dep D)) := by
      intro t dep h
      unfold merge_depots_into
      rw [h]
    rw [hstep _ _ hdep1, dupdate_idem hnd]
    exact vset_self hdep1
  rw [hmerge1, vset_self hlook_steam, vset_self (vlookup_vset_self _ _ _),
    vset_self (vlookup_vset_self _ _ _)]

theorem depotkey_merge_idempotent_witness :
    depotkey_merge (depotkey_merge cfgA dcA).2 dcA = depotkey_merge cfgA dcA :=
  depotkey_merge_idempotent cfgA dcA [("Software", .obj swA)] swA steamA DA "Valve"
    rfl rfl (Or.inl ⟨rfl, rfl⟩) rfl
    (by intro s h; simp [steamA, vlookup] at h) rfl (by decide)

/-- Claim C2: for every input byte string of length at least 12 whose
declared payload is present and inflates correctly, `parse_st_file` returns
exactly the pipeline of the spec: unpack the first 12 bytes as a
little-endian `(xorKey, payloadSize, reserved)` triple, derive the one-byte
key as `(xorKey XOR 0xFFFEA4C8) AND 0xFF`, XOR the next `payloadSize` bytes
with it, inflate, drop the first 512 decompressed bytes, and return the
remainder (the bytes whose UTF-8 decoding is the script text). -/
theorem parse_st_file_wellformed
    (inflate : List Nat → Option (List Nat)) (content d : List Nat)
    (h12 : 12 ≤ content.length)
    (hpayload : 12 + st_declared_size content ≤ content.length)
    (hinf : inflate (((content.drop 12).take (st_declared_size content)).map
        (fun b => Nat.xor b (Nat.land (Nat.xor (st_raw_xorkey content) 0xFFFEA4C8) 0xFF)))
      = some d) :
    parse_st_file inflate content = .ok (d.drop 512) := by
  unfold parse_st_file
  rw [if_neg (by omega)]
  have hlen : ((content.drop 12).take (st_declared_size content)).length
      = st_declared_size content := by
    simp only [List.length_take, List.length_drop]
    omega
  rw [if_neg (by rw [hlen]; omega)]
  dsimp only
  rw [hinf]

theorem parse_st_file_wellformed_witness :
    parse_st_file (fun l => if l = [] then some (List.replicate 520 7) else none)
      (List.replicate 12 0) = .ok ((List.replicate 520 7).drop 512) :=
  parse_st_file_wellformed _ _ (List.replicate 520 7)
    (by decide) (by decide) rfl

/-- Claim C6: each malformed input - header shorter than 12 bytes, payload
shorter than the declared size, byte stream rejected by zlib - makes
`parse_st_file` fail with its own distinct error (the `ValueError` /
`zlib.error` the Python code raises), returning no output at all; and the
caller's conversion loop catches the failure and continues with the
remaining files, so a malformed file degrades to a logged per-file failure
instead of crashing the processing of the source. -/
theorem parse_st_file_malformed :
    (∀ inflate (content : List Nat), content.length < 12 →
        parse_st_file inflate content = .error "header too short") ∧
    (∀ inflate (content : List Nat), 12 ≤ content.length →
        content.length < 12 + st_declared_size content →
        parse_st_file inflate content = .error "data too short") ∧
    (∀ inflate (content : List Nat), 12 ≤ content.length →
        12 + st_declared_size content ≤ content.length →
        inflate (((content.drop 12).take (st_declared_size content)).map
          (fun b => Nat.xor b (Nat.land (Nat.xor (st_raw_xorkey content) 0xFFFEA4C8) 0xFF)))
          = none →
        parse_st_file inflate content = .error "zlib error") ∧
    (∀ inflate (bad : List Nat) (e : String) (rest : List (List Nat)),
        parse_st_file inflate bad = .error e →
        convert_st_files inflate (bad :: rest) = convert_st_files inflate rest) := by
  refine ⟨?_, ?_, ?_, ?_⟩
  · intro inflate content h
    unfold parse_st_file
    rw [if_pos h]
  · intro inflate content h12 hshort
    unfold parse_st_file
    rw [if_neg (by omega)]
    have hlen : ((content.drop 12).take (st_declared_size content)).length
        = content.length - 12 := by
      simp only [List.length_take, List.length_drop]
      omega
    rw [if_pos (by omega)]
  · intro inflate content h12 hpayload hnone
    unfold parse_st_file
    rw [if_neg (by omega)]
    have hlen : ((content.drop 12).take (st_declared_size content)).length
        = st_declared_size content := by
      simp only [List.length_take, List.length_drop]
      omega
    rw [if_neg (by rw [hlen]; omega)]
    dsimp only
    rw [hnone]
  · intro inflate bad e rest h
    simp only [convert_st_files]
    rw [h]

theorem parse_st_file_malformed_witness :
    parse_st_file (fun _ => none) [0] = .error "header too short" ∧
    convert_st_files (fun _ => none) [[0]] = [] :=
  ⟨parse_st_file_malformed.1 _ [0] (by decide),
   parse_st_file_malformed.2.2.2 (fun _ => none) [0] "header too short" []
     (parse_st_file_malformed.1 _ [0] (by decide))⟩

/-- Counterexample to claim C4 as stated: a zip-based installation attempt
in GreenLuma mode that finds a manifest file but extracts no decryption key
still copies the manifest and reports success (`True`). -/
theorem process_zip_success_without_key_counterexample :
    (process_zip_greenluma "730" ["228990_123.manifest"] []).ok = true ∧
    (process_zip_greenluma "730" ["228990_123.manifest"] []).manifests_copied
      = ["228990_123.manifest"] ∧
    (process_zip_greenluma "730" ["228990_123.manifest"] []).keys_merged = [] :=
  ⟨rfl, rfl, rfl⟩

/-- Claim C4 (amended): the GreenLuma zip-based installation reports success
exactly when at least one manifest file is present; in particular, when no
decryption key is harvested it still copies the manifests, registers only
the AppID, merges no key, and returns `True` - a manifest without a matching
key is reported as success. -/
theorem process_zip_greenluma_success_iff
    (app_id : String) (mf : List String) (deps : List (String × String)) :
    ((process_zip_greenluma app_id mf deps).ok = true ↔ mf ≠ []) ∧
    (mf ≠ [] → process_zip_greenluma app_id mf [] =
      { ok := true, manifests_copied := mf, keys_merged := [],
        registered_ids := [app_id] }) := by
  constructor
  · unfold process_zip_greenluma
    cases mf with
    | nil => simp
    | cons m rest =>
      cases hdeps : deps.isEmpty <;> simp [hdeps]
  · intro hmf
    unfold process_zip_greenluma
    rw [if_neg (by simpa using hmf)]
    simp

theorem process_zip_greenluma_success_iff_witness :
    process_zip_greenluma "730" ["228990_123.manifest"] [] =
      { ok := true, manifests_copied := ["228990_123.manifest"], keys_merged := [],
        registered_ids := ["730"] } :=
  (process_zip_greenluma_success_iff "730" ["228990_123.manifest"] []).2 (by decide)

/-- Claim C1: the paid-DLC loop of `process_dlcs` attempts the selected
sources strictly in the given order and stops at the first success: with
sources `[A, B, C]` where `A` misses and `B` hits, exactly `[A, B]` are
attempted (so `C` is never attempted) and the result is found; in general
the loop reports failure exactly when every source in the list fails, and
the paid-DLC driver puts a DLC into the `failed` list exactly when no
source succeeded for it, into `success` otherwise. -/
theorem process_dlcs_ordered_fallback :
    (∀ (fetch : String → Option Bool) (A B C : String),
        fetch A = some false → fetch B = some true →
        try_repos fetch [A, B, C] = (true, [A, B])) ∧
    (∀ (fetch : String → Option Bool) (repos : List String),
        (try_repos fetch repos).1 = false ↔ ∀ r ∈ repos, fetch r ≠ some true) ∧
    (∀ (fetch : String → String → Option Bool) (repos : List String)
        (paid : List DlcInfo),
        process_paid_dlcs fetch repos paid
          = (paid.filter (fun dlc => (try_repos (fetch dlc.appid) repos).1),
             paid.filter (fun dlc => !(try_repos (fetch dlc.appid) repos).1))) := by
  refine ⟨?_, ?_, ?_⟩
  · intro fetch A B C hA hB
    simp [try_repos, hA, hB]
  · intro fetch repos
    induction repos with
    | nil => simp [try_repos]
    | cons r rest ih =>
      cases hr : fetch r with
      | none => simp [try_repos, hr, ih]
      | some b =>
        cases b
        · simp [try_repos, hr, ih]
        · simp [try_repos, hr]
  · intro fetch repos paid
    induction paid with
    | nil => simp [process_paid_dlcs]
    | cons dlc rest ih =>
      cases hf : (try_repos (fetch dlc.appid) repos).1 <;>
        simp [process_paid_dlcs, hf, ih, List.filter_cons]

theorem process_dlcs_ordered_fallback_witness :
    try_repos (fun s => if s = "A" then some false
      else if s = "B" then some true else none) ["A", "B", "C"] = (true, ["A", "B"]) :=
  process_dlcs_ordered_fallback.1 _ "A" "B" "C" rfl rfl

theorem chunksOfAux_flatten {α : Type} (bs : Nat) :
    ∀ (fuel : Nat) (l : List α), l.length ≤ fuel →
      (chunksOfAux bs fuel l).flatten = l := by
  intro fuel
  induction fuel with
  | zero =>
    intro l hl
    cases l with
    | nil => rfl
    | cons x xs => simp at hl
  | succ n ih =>
    intro l hl
    cases l with
    | nil => rfl
    | cons x xs =>
      have hl' : xs.length ≤ n := by simpa using hl
      simp only [chunksOfAux, List.flatten_cons]
      rw [ih (xs.drop (bs - 1)) (by simp only [List.length_drop]; omega)]
      simp [List.take_append_drop]

theorem foldl_over_chunks {α β : Type} (f : β → α → β) (L : List (List α)) :
    ∀ (init : β),
      L.foldl (fun st l => l.foldl f st) init = L.flatten.foldl f init := by
  induction L with
  | nil => intro init; rfl
  | cons l rest ih =>
    intro init
    simp only [List.foldl_cons, List.flatten_cons, List.foldl_append]
    exact ih _

theorem range_map_shift (c N n : Nat) :
    (c + 1, N) :: (List.range n).map (fun i => (c + 1 + 1 + i, N))
      = (List.range (n + 1)).map (fun i => (c + 1 + i, N)) := by
  rw [List.range_succ_eq_map, List.map_cons, List.map_map]
  congr 1
  apply List.map_congr_left
  intro i _
  simp only [Function.comp_apply, Prod.mk.injEq]
  exact ⟨by omega, trivial⟩

theorem foldl_process_result (N : Nat) :
    ∀ (results : List (Except Unit DlcInfo)) (st : BatchState),
      ((results.foldl (process_result N) st).count = st.count + results.length) ∧
      ((results.foldl (process_result N) st).events
          = st.events ++ (List.range results.length).map (fun i => (st.count + 1 + i, N))) ∧
      ((results.foldl (process_result N) st).free.length
          + (results.foldl (process_result N) st).paid.length
        = st.free.length + st.paid.length
          + (results.filter (fun r => r.toOption.isSome)).length) := by
  intro results
  induction results with
  | nil => intro st; simp
  | cons r rest ih =>
    intro st
    simp only [List.foldl_cons]
    have hstep : (process_result N st r).count = st.count + 1 ∧
        (process_result N st r).events = st.events ++ [(st.count + 1, N)] ∧
        (process_result N st r).free.length + (process_result N st r).paid.length
          = st.free.length + st.paid.length + (if r.toOption.isSome then 1 else 0) := by
      cases r with
      | error e => simp [process_result, Except.toOption]
      | ok info =>
        cases hdep : info.has_depots <;>
          simp [process_result, hdep, Except.toOption] <;> omega
    obtain ⟨hc, he, hf⟩ := hstep
    obtain ⟨ihc, ihe, ihf⟩ := ih (process_result N st r)
    refine ⟨?_, ?_, ?_⟩
    · rw [ihc, hc]
      simp only [List.length_cons]
      omega
    · rw [ihe, he, hc, List.append_assoc]
      congr 1
      rw [List.singleton_append, List.length_cons]
      exact range_map_shift st.count N rest.length
    · rw [ihf, hf]
      cases hr : r.toOption.isSome <;> simp [List.filter_cons, hr] <;> omega

/-- Claim C5: classifying a candidate DLC list of length `N` with batch size
10 issues exactly `ceil(N/10)` batches (3 batches for `N = 23`), and the
progress callback is invoked exactly `N` times with `current` running
1,2,…,N (strictly increasing) and constant total `N` - also for items whose
analysis raised an exception; such items are skipped (only successfully
analysed items land in the free/paid lists) without aborting the batch. -/
theorem get_game_dlcs_progress_spec :
    (∀ (analyze : String → Except Unit DlcInfo) (ids : List String),
        (get_game_dlcs analyze ids).events
          = (List.range ids.length).map (fun i => (i + 1, ids.length))) ∧
    (∀ (analyze : String → Except Unit DlcInfo) (ids : List String),
        (get_game_dlcs analyze ids).free.length + (get_game_dlcs analyze ids).paid.length
          = ((ids.map analyze).filter (fun r => r.toOption.isSome)).length) ∧
    ((chunksOf 10 ((List.range 23).map toString)).length = 3 ∧
      ((List.range 23).map toString).length = 23) := by
  have key : ∀ (analyze : String → Except Unit DlcInfo) (ids : List String),
      get_game_dlcs analyze ids
        = (ids.map analyze).foldl (process_result ids.length)
            { count := 0, events := [], free := [], paid := [] } := by
    intro analyze ids
    unfold get_game_dlcs
    simp only [List.foldl_map]
    rw [foldl_over_chunks]
    unfold chunksOf
    rw [chunksOfAux_flatten 10 ids.length ids (le_refl _)]
  refine ⟨?_, ?_, by decide, by decide⟩
  · intro analyze ids
    rw [key]
    have h := (foldl_process_result ids.length (ids.map analyze)
      { count := 0, events := [], free := [], paid := [] }).2.1
    rw [h]
    simp only [List.nil_append, List.length_map]
    apply List.map_congr_left
    intro i _
    simp only [Prod.mk.injEq]
    exact ⟨by omega, trivial⟩
  · intro analyze ids
    rw [key]
    have h := (foldl_process_result ids.length (ids.map analyze)
      { count := 0, events := [], free := [], paid := [] }).2.2
    simpa using h

theorem beginsWith_append (p r : List Char) : beginsWith p (p ++ r) = some r := by
  induction p with
  | nil => rfl
  | cons c cs ih => simp [beginsWith, ih]

theorem takeWhile_digits (l : List Char) (h : ∀ c ∈ l, c.isDigit = true) :
    (l ++ [')']).takeWhile Char.isDigit = l := by
  induction l with
  | nil => decide
  | cons c cs ih =>
    simp only [List.cons_append, List.takeWhile_cons, h c (by simp)]
    simp [ih (fun d hd => h d (by simp [hd]))]

theorem findAddappidId_open (tail : List Char)
    (h : tail.takeWhile Char.isDigit ≠ []) :
    findAddappidId (addappid_open ++ tail)
      = some (String.mk (tail.takeWhile Char.isDigit)) := by
  have he : addappid_open ++ tail = 'a' :: ("ddappid(".toList ++ tail) := rfl
  rw [he]
  simp only [findAddappidId]
  have hb : beginsWith addappid_open ('a' :: ("ddappid(".toList ++ tail)) = some tail := by
    rw [← he]
    exact beginsWith_append _ _
  rw [hb]
  simp [h]

theorem findAddappidId_mk (id : String) (h1 : id.toList ≠ [])
    (h2 : ∀ c ∈ id.toList, c.isDigit = true) :
    findAddappidId (mk_addappid_line id).toList = some id := by
  have ht : (mk_addappid_line id).toList = addappid_open ++ (id.toList ++ [')']) := by
    simp [mk_addappid_line, addappid_open, String.toList, String.data_append]
  rw [ht, findAddappidId_open _ (by rw [takeWhile_digits _ h2]; exact h1)]
  rw [takeWhile_digits _ h2]
  rfl

theorem findAddappidId_empty : findAddappidId ("".toList) = none := rfl

theorem lineClass_cases (l : String) :
    lineClass l = 0 ∨ lineClass l = 1 ∨ lineClass l = 2 := by
  unfold lineClass
  split
  · exact Or.inl rfl
  · split
    · exact Or.inr (Or.inl rfl)
    · exact Or.inr (Or.inr rfl)

theorem mk_addappid_line_class (id : String) : lineClass (mk_addappid_line id) = 0 := by
  have hpre : str_startswith (mk_addappid_line id) "addappid" = true := by
    have hsplit : (mk_addappid_line id).toList
        = "addappid".toList ++ ("(".toList ++ id.toList ++ ")".toList) := by
      simp [mk_addappid_line, String.toList, String.data_append]
    unfold str_startswith
    rw [hsplit]
    clear hsplit
    induction "addappid".toList with
    | nil => rfl
    | cons c cs ih => simp [List.isPrefixOf, ih]
  unfold lineClass
  rw [hpre]
  rfl

theorem mem_out_partition {all : List String} {l : String} (hl : l ∈ all) (hne : l ≠ "") :
    l ∈ List.insertionSort addappid_le (all.filter (fun x => lineClass x == 0))
        ++ all.filter (fun x => lineClass x == 1)
        ++ (all.filter (fun x => lineClass x == 2)).filter (fun x => !(x = "")) := by
  rcases lineClass_cases l with hc | hc | hc
  · refine List.mem_append.mpr (Or.inl (List.mem_append.mpr (Or.inl ?_)))
    exact (List.perm_insertionSort addappid_le _).mem_iff.mpr
      (List.mem_filter.mpr ⟨hl, by simp [hc]⟩)
  · exact List.mem_append.mpr (Or.inl (List.mem_append.mpr (Or.inr
      (List.mem_filter.mpr ⟨hl, by simp [hc]⟩))))
  · refine List.mem_append.mpr (Or.inr ?_)
    exact List.mem_filter.mpr ⟨List.mem_filter.mpr ⟨hl, by simp [hc]⟩, by simp [hne]⟩

/-- Counterexample to claim C8 as stated: the existing script registers the
numeric id 5 (twice, through two distinct `addappid` lines), and the newly
discovered id set is `{5, 7}` - overlapping the registered ids in 5 but not
identical to them (7 is new).  The merge rewrites the file, yet the written
register-app directive list still contains both distinct id-5 lines (sorted,
stably), so it is not deduplicated by numeric ID. -/
theorem process_free_dlcs_not_dedup_counterexample :
    process_free_dlcs_lua ["addappid(5, 1, \"k\")", "addappid(5)"] ["5", "7"]
      = some ["addappid(5, 1, \"k\")", "addappid(5)", "addappid(7)"] ∧
    existing_addappids ["addappid(5, 1, \"k\")", "addappid(5)"] = ["5", "5"] ∧
    get_appid_from_line "addappid(5, 1, \"k\")" = 5 ∧
    get_appid_from_line "addappid(5)" = 5 ∧
    "addappid(5, 1, \"k\")" ≠ "addappid(5)" :=
  ⟨rfl, rfl, rfl, rfl, by decide⟩

/-- Claim C8 (amended): the script merge appends a register-app line only
for newly discovered ids that are not already registered in the file (so no
new duplicate is introduced; duplicate `addappid` lines already present in
the file are preserved, not collapsed), rewrites the file with the
`addappid` block sorted ascending by numeric id (a stable sort, and a
permutation of the old `addappid` lines plus the appended ones); and
running the same merge a second time with identical input performs no write
at all, leaving the file byte-identical. -/
theorem process_free_dlcs_merge_spec :
    (∀ (existing free out : List String),
        process_free_dlcs_lua existing free = some out →
        List.Sorted addappid_le (out.filter (fun l => lineClass l == 0)) ∧
        (out.filter (fun l => lineClass l == 0)).Perm
          ((existing ++ free.filterMap (fun id =>
              if id ∈ existing_addappids existing then none
              else some (mk_addappid_line id))).filter (fun l => lineClass l == 0))) ∧
    (∀ (existing free out : List String),
        (∀ id ∈ free, id.toList ≠ [] ∧ ∀ c ∈ id.toList, c.isDigit = true) →
        process_free_dlcs_lua existing free = some out →
        process_free_dlcs_lua out free = none) := by
  have hfilter : ∀ (all : List String),
      ((List.insertionSort addappid_le (all.filter (fun l => lineClass l == 0))
          ++ all.filter (fun l => lineClass l == 1)
          ++ (all.filter (fun l => lineClass l == 2)).filter (fun l => !(l = "")))).filter
        (fun l => lineClass l == 0)
      = List.insertionSort addappid_le (all.filter (fun l => lineClass l == 0)) := by
    intro all
    rw [List.filter_append, List.filter_append]
    have h1 : (List.insertionSort addappid_le
        (all.filter (fun l => lineClass l == 0))).filter (fun l => lineClass l == 0)
        = List.insertionSort addappid_le (all.filter (fun l => lineClass l == 0)) := by
      apply List.filter_eq_self.mpr
      intro a ha
      exact (List.mem_filter.mp
        ((List.perm_insertionSort addappid_le _).mem_iff.mp ha)).2
    have h2 : (all.filter (fun l => lineClass l == 1)).filter
        (fun l => lineClass l == 0) = [] := by
      apply List.filter_eq_nil_iff.mpr
      intro a ha
      have hmem := (List.mem_filter.mp ha).2
      simp at hmem ⊢
      omega
    have h3 : ((all.filter (fun l => lineClass l == 2)).filter
        (fun l => !(l = ""))).filter (fun l => lineClass l == 0) = [] := by
      apply List.filter_eq_nil_iff.mpr
      intro a ha
      have hmem := (List.mem_filter.mp (List.mem_filter.mp ha).1).2
      simp at hmem ⊢
      omega
    rw [h1, h2, h3, List.append_nil, List.append_nil]
  constructor
  · intro existing free out h
    simp only [process_free_dlcs_lua] at h
    split at h
    · exact absurd h (by simp)
    · have hout := (Option.some.inj h).symm
      subst hout
      rw [hfilter]
      exact ⟨List.sorted_insertionSort addappid_le _, List.perm_insertionSort addappid_le _⟩
  · intro existing free out hdig h
    simp only [process_free_dlcs_lua] at h
    split at h
    · exact absurd h (by simp)
    · have hout := (Option.some.inj h).symm
      have hker : ∀ id ∈ free, id ∈ existing_addappids out := by
        intro id hid
        by_cases hmem : id ∈ existing_addappids existing
        · obtain ⟨l, hlE, hlf⟩ := List.mem_filterMap.mp hmem
          have hl_all : l ∈ existing ++ free.filterMap (fun id =>
              if id ∈ existing_addappids existing then none
              else some (mk_addappid_line id)) := List.mem_append_left _ hlE
          have hlne : l ≠ "" := by
            intro he
            rw [he, findAddappidId_empty] at hlf
            cases hlf
          have hlo : l ∈ out := by
            rw [hout]
            exact mem_out_partition hl_all hlne
          exact List.mem_filterMap.mpr ⟨l, hlo, hlf⟩
        · have hmk : mk_addappid_line id ∈ free.filterMap (fun id =>
              if id ∈ existing_addappids existing then none
              else some (mk_addappid_line id)) :=
            List.mem_filterMap.mpr ⟨id, hid, by rw [if_neg hmem]⟩
          have hfind := findAddappidId_mk id (hdig id hid).1 (hdig id hid).2
          have hne : mk_addappid_line id ≠ "" := by
            intro he
            rw [he, findAddappidId_empty] at hfind
            cases hfind
          have hlo : mk_addappid_line id ∈ out := by
            rw [hout]
            exact mem_out_partition (List.mem_append_right _ hmk) hne
          exact List.mem_filterMap.mpr ⟨_, hlo, hfind⟩
      have hempty : (free.filterMap (fun id =>
          if id ∈ existing_addappids out then none
          else some (mk_addappid_line id))) = [] := by
        apply List.filterMap_eq_nil_iff.mpr
        intro id hid
        rw [if_pos (hker id hid)]
      simp only [process_free_dlcs_lua, hempty]
      rfl

theorem process_free_dlcs_merge_spec_witness :
    process_free_dlcs_lua ["addappid(1)", "addappid(2)"] ["1"] = none :=
  process_free_dlcs_merge_spec.2 ["addappid(2)"] ["1"] ["addappid(1)", "addappid(2)"]
    (by decide) rfl

theorem search_all_repos_mem (branchInfo : String → Option BranchResp)
    (treeInfo : String → Option TreeResp) (repos : List String) (r : SearchResult) :
    r ∈ search_all_repos branchInfo treeInfo repos ↔
      ∃ repo ∈ repos, ∃ b, branchInfo repo = some b ∧ b.hasCommit = true ∧
        (∃ t, treeInfo b.treeUrl = some t ∧ t.hasTree = true) ∧
        r = ⟨repo, b.sha, b.date⟩ := by
  unfold search_all_repos
  rw [List.mem_filterMap]
  constructor
  · rintro ⟨repo, hrepo, hf⟩
    refine ⟨repo, hrepo, ?_⟩
    cases hb : branchInfo repo with
    | none => simp [hb] at hf
    | some b =>
      cases hc : b.hasCommit with
      | false => simp [hb, hc] at hf
      | true =>
        cases htr : treeInfo b.treeUrl with
        | none => simp [hb, hc, htr] at hf
        | some t =>
          cases hht : t.hasTree with
          | false => simp [hb, hc, htr, hht] at hf
          | true =>
            simp [hb, hc, htr, hht] at hf
            exact ⟨b, rfl, hc, ⟨t, htr, hht⟩, hf.symm⟩
  · rintro ⟨repo, hrepo, b, hb, hc, ⟨t, htr, hht⟩, hr⟩
    refine ⟨repo, hrepo, ?_⟩
    simp [hb, hc, htr, hht, hr]

theorem select_latest_max (results : List SearchResult) (h : results ≠ []) :
    ∃ s, select_latest results = some s ∧ s ∈ results ∧
      ∀ r ∈ results, r.update_date ≤ s.update_date := by
  unfold select_latest
  have hperm := List.perm_insertionSort dateGe results
  have hsorted := List.sorted_insertionSort dateGe results
  cases hsort : List.insertionSort dateGe results with
  | nil =>
    rw [hsort] at hperm
    exact absurd hperm.symm.eq_nil h
  | cons s tail =>
    refine ⟨s, rfl, ?_, ?_⟩
    · have hs : s ∈ List.insertionSort dateGe results := by
        rw [hsort]
        exact List.mem_cons_self _ _
      exact hperm.mem_iff.mp hs
    · intro r hr
      have hr' : r ∈ s :: tail := by
        rw [← hsort]
        exact hperm.mem_iff.mpr hr
      rcases List.mem_cons.mp hr' with heq | hmem
      · rw [heq]
      · rw [hsort] at hsorted
        exact (List.pairwise_cons.mp hsorted).1 r hmem

/-- Claim C9: in "search all sources" mode a repository contributes a result
exactly when its branch lookup succeeds with a commit and its tree lookup
succeeds with a tree (misses - no branch, no commit, no tree - are ignored),
every listed repository is considered, and among the hits the installed one
is an element with the maximal (most recent) update timestamp.  The spec
phrase "queried concurrently" concerns scheduling only; the query
`search_all_repos` in fact awaits the repositories one after the other, with
an identical result set. -/
theorem search_all_selects_latest :
    (∀ (branchInfo : String → Option BranchResp) (treeInfo : String → Option TreeResp)
        (repos : List String) (r : SearchResult),
        r ∈ search_all_repos branchInfo treeInfo repos ↔
          ∃ repo ∈ repos, ∃ b, branchInfo repo = some b ∧ b.hasCommit = true ∧
            (∃ t, treeInfo b.treeUrl = some t ∧ t.hasTree = true) ∧
            r = ⟨repo, b.sha, b.date⟩) ∧
    (∀ results : List SearchResult, results ≠ [] →
        ∃ s, select_latest results = some s ∧ s ∈ results ∧
          ∀ r ∈ results, r.update_date ≤ s.update_date) :=
  ⟨search_all_repos_mem, select_latest_max⟩

theorem search_all_selects_latest_witness :
    ∃ s, select_latest [⟨"r1", "s1", "2024-01-01T10:00:00Z"⟩,
        ⟨"r2", "s2", "2025-06-01T10:00:00Z"⟩] = some s ∧
      s ∈ [(⟨"r1", "s1", "2024-01-01T10:00:00Z"⟩ : SearchResult),
        ⟨"r2", "s2", "2025-06-01T10:00:00Z"⟩] ∧
      ∀ r ∈ [(⟨"r1", "s1", "2024-01-01T10:00:00Z"⟩ : SearchResult),
        ⟨"r2", "s2", "2025-06-01T10:00:00Z"⟩], r.update_date ≤ s.update_date :=
  search_all_selects_latest.2 _ (by decide)

/-- Claim C10: when the region probe fails (request or JSON parse raised),
`checkcn` stores `IS_CN = "yes"`, so every subsequent `get_from_url`
candidate list consists of exactly the two CN mirror CDNs and never the
official `raw.githubusercontent.com` host; conversely, the official host
appears among the candidates only when the probe answered and its `flag`
field was falsy, i.e. positively reported a non-CN location. -/
theorem checkcn_defaults_to_cn :
    (checkcn none = "yes") ∧
    (∀ repo sha path,
        (get_from_url_candidates (checkcn none) repo sha path).map MirrorUrl.host
          = ["cdn.jsdmirror.com", "raw.gitmirror.com"] ∧
        "raw.githubusercontent.com" ∉
          (get_from_url_candidates (checkcn none) repo sha path).map MirrorUrl.host) ∧
    (∀ (resp : Option Bool) repo sha path,
        "raw.githubusercontent.com" ∈
            (get_from_url_candidates (checkcn resp) repo sha path).map MirrorUrl.host →
        resp = some false) := by
  refine ⟨rfl, ?_, ?_⟩
  · intro repo sha path
    constructor
    · rfl
    · simp [checkcn, get_from_url_candidates]
  · intro resp repo sha path hmem
    match resp with
    | none => simp [checkcn, get_from_url_candidates] at hmem
    | some true => simp [checkcn, get_from_url_candidates] at hmem
    | some false => rfl

theorem checkcn_defaults_to_cn_witness :
    (some false : Option Bool) = some false ∧
    (get_from_url_candidates (checkcn none) "repo" "sha" "path").map MirrorUrl.host
      = ["cdn.jsdmirror.com", "raw.gitmirror.com"] :=
  ⟨checkcn_defaults_to_cn.2.2 (some false) "repo" "sha" "path" (by simp
      [checkcn, get_from_url_candidates]),
   (checkcn_defaults_to_cn.2.1 "repo" "sha" "path").1⟩
